import Mathlib

/-!
Verification of the locality- and load-aware request router specified in
spec.md (the power-of-two-choices request router of ray serve).

The repository snapshot under verification contains only the router's unit
tests (test_pow_2_request_router.py); the router implementation itself
(ray/serve/_private/request_router) is not part of the snapshot.  Every
definition below is therefore modelled from the specification text, and each
definition's doc comment records which part of the spec it embeds.  Wall-clock
times, timeouts and deadlines (float seconds in the source) are modelled as
integer ticks: every property claimed about them (ordering, staleness
comparison, doubling capped at a maximum) is invariant under the choice of
time unit.  Queue lengths are naturals and replica identifiers are strings.
-/

namespace RequestRouter

/-- Modelled from the spec: a ReplicaHandle carries identity
(`replica_id`, `node_id`, optional `availability_zone`,
`multiplexed_model_ids`, `max_ongoing_requests`).  The probe operation
`get_queue_len` is modelled separately as a response function. -/
structure Replica where
  uid : String
  node_id : String
  az : Option String
  model_ids : List String
  max_ongoing : Nat
deriving DecidableEq

/-- Modelled from the spec: `QueueLengthCache` is a bounded-staleness map
`replica_id → (queue_len, timestamp)` with staleness timeout
`queue_len_cache_staleness_timeout_s`. -/
structure ReplicaQueueLengthCache where
  staleness_timeout_s : ℤ
  entry : String → Option (Nat × ℤ)

namespace ReplicaQueueLengthCache

/-- Modelled from the spec: the empty cache (no probe has completed yet). -/
def empty (timeout : ℤ) : ReplicaQueueLengthCache :=
  ⟨timeout, fun _ => none⟩

/-- Modelled from the spec: `get(id, now)` returns `queue_len` if
`now - ts ≤ staleness_timeout_s`, else absent. -/
def get (c : ReplicaQueueLengthCache) (id : String) (now : ℤ) : Option Nat :=
  match c.entry id with
  | none => none
  | some (q, ts) => if now - ts ≤ c.staleness_timeout_s then some q else none

/-- Modelled from the spec: `update(id, queue_len, now)` overwrites the
entry for `id`. -/
def update (c : ReplicaQueueLengthCache) (id : String) (q : Nat) (now : ℤ) :
    ReplicaQueueLengthCache :=
  { c with entry := fun j => if j = id then some (q, now) else c.entry j }

/-- Modelled from the spec: `remove_inactive(active_ids)` drops all keys not
in `active_ids`. -/
def removeInactiveReplicas (c : ReplicaQueueLengthCache) (active : List String) :
    ReplicaQueueLengthCache :=
  { c with entry := fun j => if j ∈ active then c.entry j else none }

/-- Modelled from the spec: removing a single replica's cache entry (used on
eviction of a permanently dead replica). -/
def removeEntry (c : ReplicaQueueLengthCache) (id : String) :
    ReplicaQueueLengthCache :=
  { c with entry := fun j => if j = id then none else c.entry j }

end ReplicaQueueLengthCache

/-- Modelled from the spec: one step of the probe-deadline back-off.
Deadlines double on each timeout attempt up to
`max_queue_len_response_deadline_s`; if the maximum is below the current
deadline the current deadline is kept (so when
`max_queue_len_response_deadline_s < queue_len_response_deadline_s` the
initial value is used for every attempt). -/
def nextDeadline (maxD d : ℤ) : ℤ :=
  if maxD < d then d else if 2 * d ≤ maxD then 2 * d else maxD

/-- Modelled from the spec: the deadline used for the k-th probe attempt
against a non-responding replica, starting at
`queue_len_response_deadline_s`. -/
def deadlineSeq (init maxD : ℤ) : Nat → ℤ
  | 0 => init
  | k + 1 => nextDeadline maxD (deadlineSeq init maxD k)

theorem deadlineSeq_zero (init maxD : ℤ) : deadlineSeq init maxD 0 = init := rfl

theorem deadlineSeq_le_max (init maxD : ℤ) (h : init ≤ maxD) :
    ∀ k, deadlineSeq init maxD k ≤ maxD := by
  intro k
  induction k with
  | zero => exact h
  | succ k ih =>
    show nextDeadline maxD (deadlineSeq init maxD k) ≤ maxD
    unfold nextDeadline
    split
    · exact ih
    · split <;> omega

theorem deadlineSeq_nonneg (init maxD : ℤ) (h0 : 0 ≤ init) :
    ∀ k, 0 ≤ deadlineSeq init maxD k := by
  intro k
  induction k with
  | zero => exact h0
  | succ k ih =>
    show 0 ≤ nextDeadline maxD (deadlineSeq init maxD k)
    unfold nextDeadline
    split
    · exact ih
    · split <;> omega

theorem deadlineSeq_mono (init maxD : ℤ) (h0 : 0 ≤ init) (h : init ≤ maxD) :
    ∀ k, deadlineSeq init maxD k ≤ deadlineSeq init maxD (k + 1) := by
  intro k
  have hnn := deadlineSeq_nonneg init maxD h0 k
  have hle := deadlineSeq_le_max init maxD h k
  show deadlineSeq init maxD k ≤ nextDeadline maxD (deadlineSeq init maxD k)
  unfold nextDeadline
  split
  · exact le_refl _
  · split <;> omega

theorem deadlineSeq_succ_eq (init maxD : ℤ) (h : init ≤ maxD) :
    ∀ k, deadlineSeq init maxD (k + 1) = maxD ∨
      deadlineSeq init maxD (k + 1) = 2 * deadlineSeq init maxD k := by
  intro k
  have hle := deadlineSeq_le_max init maxD h k
  show nextDeadline maxD (deadlineSeq init maxD k) = maxD ∨
    nextDeadline maxD (deadlineSeq init maxD k) = 2 * deadlineSeq init maxD k
  unfold nextDeadline
  split
  · omega
  · split
    · right; rfl
    · left; rfl

theorem deadlineSeq_const_of_max_lt (init maxD : ℤ) (h : maxD < init) :
    ∀ k, deadlineSeq init maxD k = init := by
  intro k
  induction k with
  | zero => rfl
  | succ k ih =>
    show nextDeadline maxD (deadlineSeq init maxD k) = init
    rw [ih]
    unfold nextDeadline
    rw [if_pos h]

/-- Modelled from the spec: the deadline used at any attempt never exceeds
the larger of the initial deadline and the configured maximum (this is the
boundedness fact behind the absence of arithmetic overflow in back-off
computations). -/
theorem deadlineSeq_bounded (init maxD : ℤ) :
    ∀ k, deadlineSeq init maxD k ≤ max init maxD := by
  intro k
  induction k with
  | zero => exact le_max_left _ _
  | succ k ih =>
    show nextDeadline maxD (deadlineSeq init maxD k) ≤ max init maxD
    unfold nextDeadline
    have := le_max_right init maxD
    split
    · exact ih
    · split <;> omega

theorem cache_get_update (c : ReplicaQueueLengthCache) (id : String)
    (q : Nat) (ts now : ℤ) :
    (c.update id q ts).get id now =
      if now - ts ≤ c.staleness_timeout_s then some q else none := by
  simp [ReplicaQueueLengthCache.get, ReplicaQueueLengthCache.update]

theorem cache_get_empty (timeout : ℤ) (id : String) (now : ℤ) :
    (ReplicaQueueLengthCache.empty timeout).get id now = none := rfl

/-- C6 (amended): for a non-negative initial probe deadline, whenever
`queue_len_response_deadline_s ≤ max_queue_len_response_deadline_s` the
deadline history starts at the initial deadline, is non-decreasing, never
exceeds the maximum, and every successor deadline equals either the maximum
or exactly twice its predecessor; when the maximum is below the initial
deadline, every recorded deadline equals the initial deadline. -/
theorem claim_C6 (init maxD : ℤ) (h0 : 0 ≤ init) :
    (init ≤ maxD →
      deadlineSeq init maxD 0 = init ∧
      (∀ k, deadlineSeq init maxD k ≤ deadlineSeq init maxD (k + 1)) ∧
      (∀ k, deadlineSeq init maxD k ≤ maxD) ∧
      (∀ k, deadlineSeq init maxD (k + 1) = maxD ∨
        deadlineSeq init maxD (k + 1) = 2 * deadlineSeq init maxD k)) ∧
    (maxD < init → ∀ k, deadlineSeq init maxD k = init) := by
  constructor
  · intro h
    exact ⟨deadlineSeq_zero init maxD, deadlineSeq_mono init maxD h0 h,
      deadlineSeq_le_max init maxD h, deadlineSeq_succ_eq init maxD h⟩
  · intro h
    exact deadlineSeq_const_of_max_lt init maxD h

/-- C6 counterexample: the claim quantifies over every configuration, but
with `queue_len_response_deadline_s = 2` and
`max_queue_len_response_deadline_s = 1` (the regime the spec itself pins as
"all probe deadlines equal the initial value") the recorded deadline exceeds
the maximum and the successor is neither the maximum nor twice its
predecessor; moreover with a negative initial deadline (-1, maximum 5) the
history fails to be non-decreasing. -/
theorem claim_C6_counterexample :
    ¬ (deadlineSeq 2 1 0 ≤ 1) ∧
    ¬ (deadlineSeq 2 1 1 = 1 ∨ deadlineSeq 2 1 1 = 2 * deadlineSeq 2 1 0) ∧
    ¬ (deadlineSeq (-1) 5 0 ≤ deadlineSeq (-1) 5 1) := by decide

/-- C6 witness: the amended claim instantiated at initial deadline 1 and
maximum deadline 5. -/
theorem claim_C6_witness :
    deadlineSeq 1 5 0 = 1 ∧
    (∀ k, deadlineSeq 1 5 k ≤ deadlineSeq 1 5 (k + 1)) ∧
    (∀ k, deadlineSeq 1 5 k ≤ 5) ∧
    (∀ k, deadlineSeq 1 5 (k + 1) = 5 ∨
      deadlineSeq 1 5 (k + 1) = 2 * deadlineSeq 1 5 k) :=
  (claim_C6 1 5 (by decide)).1 (by decide)

/-- C7: for every replica id, queue length and pair of times, `get` after
`update(id, q)` at time `ts` returns `q` exactly when
`now - ts ≤ staleness_timeout_s` and absent otherwise; `get` on a cache that
was never updated returns absent; and a later `update` resets the timestamp
so `get` returns the new value under the new timestamp. -/
theorem claim_C7 (c : ReplicaQueueLengthCache) (id : String) (q q' : Nat)
    (ts ts' now : ℤ) :
    ((c.update id q ts).get id now =
      if now - ts ≤ c.staleness_timeout_s then some q else none) ∧
    (∀ timeout, (ReplicaQueueLengthCache.empty timeout).get id now = none) ∧
    (((c.update id q ts).update id q' ts').get id now =
      if now - ts' ≤ c.staleness_timeout_s then some q' else none) := by
  refine ⟨cache_get_update c id q ts now, fun timeout => rfl, ?_⟩
  exact cache_get_update (c.update id q ts) id q' ts' now

/-- Modelled from the spec: the router facade's worker-pool state: the number
of pending requests in `pending_to_fulfill`, the number of active replicas,
the hard cap `max_num_routing_tasks_cap`, and the number of live routing
worker tasks (`curr_num_routing_tasks`). -/
structure PoolState where
  pending : Nat
  numReplicas : Nat
  cap : Nat
  tasks : Nat
deriving DecidableEq

/-- Modelled from the spec: the dynamic pool target
`min(|pending_to_fulfill|, 2 × |replicas|, max_num_routing_tasks_cap)`. -/
def targetTasks (s : PoolState) : Nat :=
  min s.pending (min (2 * s.numReplicas) s.cap)

/-- Modelled from the spec: the facade adjusts the worker pool to the target
size. -/
def adjustPool (s : PoolState) : PoolState :=
  { s with tasks := targetTasks s }

/-- Modelled from the spec: the operations that touch the pool — submitting a
request (`choose_replica_for_request`), replacing the replica set
(`update_replicas`), changing the hard cap, and a worker exiting after
fulfilling a request.  The facade adjusts the pool on each of them. -/
inductive PoolOp
  | submit
  | updateReplicas (n : Nat)
  | setCap (n : Nat)
  | workerExit

/-- Modelled from the spec: effect of one facade operation on the pool
state, followed by the pool adjustment. -/
def applyPoolOp (s : PoolState) : PoolOp → PoolState
  | .submit => adjustPool { s with pending := s.pending + 1 }
  | .updateReplicas n => adjustPool { s with numReplicas := n }
  | .setCap n => adjustPool { s with cap := n }
  | .workerExit =>
      adjustPool { s with pending := s.pending - 1, tasks := s.tasks - 1 }

/-- Modelled from the spec: a sequence of facade operations applied in
order. -/
def runPoolOps (s : PoolState) (ops : List PoolOp) : PoolState :=
  ops.foldl applyPoolOp s

/-- Modelled from the spec: the initial router state: no pending requests, no
replicas, no routing tasks. -/
def initPool (cap : Nat) : PoolState := ⟨0, 0, cap, 0⟩

/-- Modelled from the spec: invariant 2 of the data model:
`|routing_tasks| ≤ min(2 × |replicas|, max_num_routing_tasks_cap)`, and when
`replicas` is empty, `routing_tasks` is empty. -/
def PoolInv (s : PoolState) : Prop :=
  s.tasks ≤ min (2 * s.numReplicas) s.cap ∧ (s.numReplicas = 0 → s.tasks = 0)

theorem poolInv_adjustPool (s : PoolState) : PoolInv (adjustPool s) := by
  constructor
  · exact min_le_right _ _
  · intro h
    have h2 : s.numReplicas = 0 := h
    simp only [adjustPool, targetTasks]
    omega

theorem poolInv_applyPoolOp (s : PoolState) (op : PoolOp) :
    PoolInv (applyPoolOp s op) := by
  cases op <;> exact poolInv_adjustPool _

theorem poolInv_runPoolOps (ops : List PoolOp) :
    ∀ s : PoolState, PoolInv s → PoolInv (runPoolOps s ops) := by
  induction ops with
  | nil => intro s hs; exact hs
  | cons op rest ih =>
    intro s _
    exact ih (applyPoolOp s op) (poolInv_applyPoolOp s op)

/-- C2: after any sequence of facade operations
(`choose_replica_for_request` submissions, `update_replicas`, cap changes,
worker exits) starting from the initial state, the number of live routing
worker tasks is at most `min(2 × |replicas|, max_num_routing_tasks_cap)` and
is zero whenever the replica set is empty. -/
theorem claim_C2 (cap : Nat) (ops : List PoolOp) :
    PoolInv (runPoolOps (initPool cap) ops) := by
  apply poolInv_runPoolOps
  constructor
  · exact Nat.zero_le _
  · intro _; rfl

/-- Modelled from the spec: probing the sampled candidates and binding to the
one with the smallest reported queue length below its
`max_ongoing_requests` (`_select_from_candidate_replicas`).  `resp` gives
each replica's probe response; `backoffIndex` selects the probe deadline via
the capped doubling sequence.  Returns the deadline used together with the
chosen replica, if any candidate reported remaining capacity. -/
def selectFromCandidateReplicas (init maxD : ℤ) (backoffIndex : Nat)
    (cands : List Replica) (resp : String → Nat) : ℤ × Option Replica :=
  (deadlineSeq init maxD backoffIndex,
    match cands.filter (fun r => resp r.uid < r.max_ongoing) with
    | [] => none
    | h :: t => some (t.foldl (fun best r =>
        if resp r.uid < resp best.uid then r else best) h))

theorem foldl_choose_mem {α : Type} (g : α → α → α)
    (hg : ∀ a b, g a b = a ∨ g a b = b) :
    ∀ (t : List α) (h : α), t.foldl g h ∈ h :: t := by
  intro t
  induction t with
  | nil => intro h; exact List.mem_singleton.mpr rfl
  | cons x t ih =>
    intro h
    have hmem := ih (g h x)
    rcases hg h x with heq | heq <;> rw [heq] at hmem <;>
      simp only [List.foldl_cons] <;>
      rcases List.mem_cons.mp hmem with h1 | h1 <;> simp [heq, h1]

/-- C10: for every backoff attempt index (including indices far past the end
of the backoff sequence), selecting from candidate replicas is total: when
some candidate reports remaining capacity it returns one of the candidates,
and the deadline value it computes is bounded by the larger of the initial
and maximum configured deadlines (so its computation cannot overflow). -/
theorem claim_C10 (init maxD : ℤ) (backoffIndex : Nat) (cands : List Replica)
    (resp : String → Nat) (h : ∃ r ∈ cands, resp r.uid < r.max_ongoing) :
    (∃ r, (selectFromCandidateReplicas init maxD backoffIndex cands resp).2 =
        some r ∧ r ∈ cands) ∧
    (selectFromCandidateReplicas init maxD backoffIndex cands resp).1 ≤
      max init maxD := by
  constructor
  · obtain ⟨r, hr, hcap⟩ := h
    have hfilt : r ∈ cands.filter (fun r => resp r.uid < r.max_ongoing) := by
      rw [List.mem_filter]
      exact ⟨hr, by simpa using hcap⟩
    rcases hcons : cands.filter (fun r => resp r.uid < r.max_ongoing) with
      _ | ⟨hd, tl⟩
    · rw [hcons] at hfilt; cases hfilt
    · refine ⟨tl.foldl (fun best r =>
        if resp r.uid < resp best.uid then r else best) hd, ?_, ?_⟩
      · simp only [selectFromCandidateReplicas]
        rw [hcons]
      · have hmem := foldl_choose_mem
          (fun best r => if resp r.uid < resp best.uid then r else best)
          (fun a b => by by_cases hc : resp b.uid < resp a.uid <;> simp [hc])
          tl hd
        have hin : tl.foldl (fun best r =>
            if resp r.uid < resp best.uid then r else best) hd ∈
            cands.filter (fun r => resp r.uid < r.max_ongoing) := by
          rw [hcons]
          exact hmem
        exact List.filter_subset' cands hin
  · exact deadlineSeq_bounded init maxD backoffIndex

/-- C10 witness: two candidate replicas both reporting queue length 0, with
backoff index 2048. -/
theorem claim_C10_witness :
    (∃ r, (selectFromCandidateReplicas 1 5 2048
        [⟨"r1", "", none, [], 10⟩, ⟨"r2", "", none, [], 10⟩]
        (fun _ => 0)).2 = some r ∧
      r ∈ [(⟨"r1", "", none, [], 10⟩ : Replica), ⟨"r2", "", none, [], 10⟩]) ∧
    (selectFromCandidateReplicas 1 5 2048
        [⟨"r1", "", none, [], 10⟩, ⟨"r2", "", none, [], 10⟩]
        (fun _ => 0)).1 ≤ max 1 5 :=
  claim_C10 1 5 2048 _ _ (by decide)

/-- Modelled from the spec: whether a replica is in the router's availability
zone (an absent zone on either side never matches). -/
def azMatches (selfAZ : Option String) (r : Replica) : Bool :=
  match selfAZ, r.az with
  | some a, some b => a == b
  | _, _ => false

/-- Modelled from the spec: locality rank of a replica: 0 when it is on the
router's node, 1 when it only shares the router's availability zone, 2
otherwise. -/
def localityRank (selfNode : String) (selfAZ : Option String) (r : Replica) :
    Nat :=
  if r.node_id = selfNode then 0 else if azMatches selfAZ r then 1 else 2

/-- Modelled from the spec: the introspection method
`rank_replicas_via_locality`, partitioning the replicas into tiers by
locality rank. -/
def rankReplicasViaLocality (selfNode : String) (selfAZ : Option String)
    (replicas : List Replica) : List (List Replica) :=
  [replicas.filter (fun r => localityRank selfNode selfAZ r == 0),
   replicas.filter (fun r => localityRank selfNode selfAZ r == 1),
   replicas.filter (fun r => localityRank selfNode selfAZ r == 2)]

/-- Modelled from the spec: the candidate tiers visited by one routing
attempt: the same-node replicas (when `prefer_local_node_routing`), then the
same-availability-zone replicas (when `prefer_local_az_routing`), then all
replicas. -/
def routingLocalityTiers (selfNode : String) (selfAZ : Option String)
    (preferNode preferAZ : Bool) (replicas : List Replica) :
    List (List Replica) :=
  (if preferNode then [replicas.filter (fun r => r.node_id == selfNode)]
    else []) ++
  (if preferAZ then [replicas.filter (fun r => azMatches selfAZ r)]
    else []) ++
  [replicas]

/-- Modelled from the spec: the introspection method
`rank_replicas_via_multiplex`: first the replicas whose
`multiplexed_model_ids` contain the requested id, then the replicas with the
fewest cached model ids among the remaining ones, then the rest (per the
repository's ranking test, the fewest-models tier is computed over all
remaining replicas, including those with no cached models). -/
def rankReplicasViaMultiplex (modelId : String) (replicas : List Replica) :
    List (List Replica) :=
  let exact := replicas.filter (fun r => decide (modelId ∈ r.model_ids))
  let rest := replicas.filter (fun r => !decide (modelId ∈ r.model_ids))
  match (rest.map (fun r => r.model_ids.length)).min? with
  | none => [exact, [], []]
  | some m => [exact,
      rest.filter (fun r => r.model_ids.length == m),
      rest.filter (fun r => r.model_ids.length != m)]

/-- Follows the claim's words for the second multiplex tier ("replicas with
the fewest cached model ids among those that have any"): the fewest-models
tier restricted to replicas with a non-empty model set.  Stated only to be
compared against `rankReplicasViaMultiplex`. -/
def fewestModelsTierSpec (modelId : String) (replicas : List Replica) :
    List Replica :=
  let rest := replicas.filter (fun r => !decide (modelId ∈ r.model_ids))
  let withAny := rest.filter (fun r => !r.model_ids.isEmpty)
  match (withAny.map (fun r => r.model_ids.length)).min? with
  | none => []
  | some m => withAny.filter (fun r => r.model_ids.length == m)

/-- Modelled from the spec: the observable actions of a single routing
attempt: probing a tier's candidates, binding to a replica, and sleeping for
a backoff delay after all tiers are exhausted. -/
inductive RouteAction
  | probe (tier : List Replica)
  | bindTo (r : Replica)
  | sleep (d : ℤ)
deriving DecidableEq

/-- Modelled from the spec: the backoff delay for attempt index `i` is
`backoff_sequence_s[min(i, len - 1)]`. -/
def backoffDelay (seq : List ℤ) (i : Nat) : ℤ :=
  seq.getD (min i (seq.length - 1)) 0

/-- Modelled from the spec: one routing attempt walks the candidate tiers in
order; a tier whose candidates are all unavailable is exhausted and the
attempt advances to the next tier without sleeping; an available candidate is
bound; only after the last tier is exhausted does the attempt sleep for the
backoff delay. -/
def attemptTiers (avail : Replica → Bool) (d : ℤ) :
    List (List Replica) → List RouteAction
  | [] => [.sleep d]
  | tier :: rest =>
    match tier.find? avail with
    | some r => [.probe tier, .bindTo r]
    | none => .probe tier :: attemptTiers avail d rest

theorem attemptTiers_bind_shape (avail : Replica → Bool) (d : ℤ) :
    ∀ tiers : List (List Replica), (∃ t ∈ tiers, ∃ x ∈ t, avail x = true) →
    ∃ j r, j < tiers.length ∧ avail r = true ∧ r ∈ tiers.getD j [] ∧
      attemptTiers avail d tiers =
        ((tiers.take (j + 1)).map RouteAction.probe) ++ [RouteAction.bindTo r] ∧
      (∀ t ∈ tiers.take j, ∀ x ∈ t, avail x = false) := by
  intro tiers
  induction tiers with
  | nil => rintro ⟨t, ht, -⟩; cases ht
  | cons tier rest ih =>
    intro h
    cases hf : tier.find? avail with
    | some r =>
      refine ⟨0, r, Nat.succ_pos _, List.find?_some hf, ?_, ?_, ?_⟩
      · simpa using List.mem_of_find?_eq_some hf
      · simp [attemptTiers, hf]
      · intro t ht; cases ht
    | none =>
      have hnone : ∀ x ∈ tier, avail x = false := by
        intro x hx
        have := List.find?_eq_none.mp hf x hx
        simpa using this
      obtain ⟨t, ht, x, hx, hax⟩ := h
      rcases List.mem_cons.mp ht with rfl | ht2
      · rw [hnone x hx] at hax; cases hax
      · obtain ⟨j, r, hj, har, hmem, hshape, hbefore⟩ := ih ⟨t, ht2, x, hx, hax⟩
        refine ⟨j + 1, r, by simpa using Nat.succ_lt_succ hj, har, ?_, ?_, ?_⟩
        · simpa using hmem
        · simp only [attemptTiers, hf, hshape, List.take_succ_cons,
            List.map_cons, List.cons_append]
        · intro t' ht'
          rcases List.mem_cons.mp (by simpa using ht') with rfl | ht'2
          · exact hnone
          · exact hbefore t' ht'2

theorem attemptTiers_all_exhausted (avail : Replica → Bool) (d : ℤ) :
    ∀ tiers : List (List Replica), (∀ t ∈ tiers, ∀ x ∈ t, avail x = false) →
      attemptTiers avail d tiers =
        (tiers.map RouteAction.probe) ++ [RouteAction.sleep d] := by
  intro tiers
  induction tiers with
  | nil => intro _; rfl
  | cons tier rest ih =>
    intro h
    have hf : tier.find? avail = none := by
      rw [List.find?_eq_none]
      intro x hx
      simp [h tier (List.mem_cons_self tier rest) x hx]
    simp [attemptTiers, hf, ih (fun t ht => h t (List.mem_cons_of_mem tier ht))]

theorem sleep_not_mem_bind_shape (tiers : List (List Replica)) (r : Replica)
    (q : ℤ) : RouteAction.sleep q ∉
      (tiers.map RouteAction.probe) ++ [RouteAction.bindTo r] := by
  intro hmem
  rcases List.mem_append.mp hmem with h1 | h1
  · obtain ⟨t, -, ht⟩ := List.mem_map.mp h1
    cases ht
  · rcases List.mem_singleton.mp h1

/-- C4: within a single routing attempt the tiers are visited in strict
order — same node, then same availability zone, then all replicas — and
exhausting a tier advances to the next without sleeping: whenever any
replica at all is available, the attempt probes a prefix of the tiers in
order, binds, and emits no sleep action, regardless of the entries of
`backoff_sequence_s`. -/
theorem claim_C4 (selfNode : String) (selfAZ : Option String)
    (replicas : List Replica) (avail : Replica → Bool) (seq : List ℤ)
    (i : Nat) (h : ∃ x ∈ replicas, avail x = true) :
    ∃ j r, j < (routingLocalityTiers selfNode selfAZ true true replicas).length ∧
      avail r = true ∧
      r ∈ (routingLocalityTiers selfNode selfAZ true true replicas).getD j [] ∧
      attemptTiers avail (backoffDelay seq i)
          (routingLocalityTiers selfNode selfAZ true true replicas) =
        (((routingLocalityTiers selfNode selfAZ true true replicas).take
            (j + 1)).map RouteAction.probe) ++ [RouteAction.bindTo r] ∧
      (∀ t ∈ (routingLocalityTiers selfNode selfAZ true true replicas).take j,
        ∀ x ∈ t, avail x = false) ∧
      (∀ q, RouteAction.sleep q ∉ attemptTiers avail (backoffDelay seq i)
        (routingLocalityTiers selfNode selfAZ true true replicas)) := by
  obtain ⟨x, hx, hax⟩ := h
  have hlast : replicas ∈ routingLocalityTiers selfNode selfAZ true true replicas := by
    simp [routingLocalityTiers]
  obtain ⟨j, r, hj, har, hmem, hshape, hbefore⟩ :=
    attemptTiers_bind_shape avail (backoffDelay seq i)
      (routingLocalityTiers selfNode selfAZ true true replicas)
      ⟨replicas, hlast, x, hx, hax⟩
  refine ⟨j, r, hj, har, hmem, hshape, hbefore, ?_⟩
  intro q hq
  rw [hshape] at hq
  exact sleep_not_mem_bind_shape _ r q hq

/-- C4 witness: the repository's locality-backoff test scenario: three
replicas, one on the router's node and zone, one in the router's zone only,
one remote; only the remote replica is available; the backoff sequence would
sleep 999 at every index. -/
theorem claim_C4_witness :
    ∃ j r, j < (routingLocalityTiers "router_node_id" (some "router_az") true
        true
        [⟨"r1", "router_node_id", some "router_az", [], 10⟩,
         ⟨"r2", "node2", some "router_az", [], 10⟩,
         ⟨"r3", "node2", some "az2", [], 10⟩]).length ∧
      (fun x => x.uid == "r3") r = true ∧
      r ∈ (routingLocalityTiers "router_node_id" (some "router_az") true true
        [⟨"r1", "router_node_id", some "router_az", [], 10⟩,
         ⟨"r2", "node2", some "router_az", [], 10⟩,
         ⟨"r3", "node2", some "az2", [], 10⟩]).getD j [] ∧
      attemptTiers (fun x => x.uid == "r3") (backoffDelay [999, 999, 999, 999] 0)
          (routingLocalityTiers "router_node_id" (some "router_az") true true
            [⟨"r1", "router_node_id", some "router_az", [], 10⟩,
             ⟨"r2", "node2", some "router_az", [], 10⟩,
             ⟨"r3", "node2", some "az2", [], 10⟩]) =
        (((routingLocalityTiers "router_node_id" (some "router_az") true true
            [⟨"r1", "router_node_id", some "router_az", [], 10⟩,
             ⟨"r2", "node2", some "router_az", [], 10⟩,
             ⟨"r3", "node2", some "az2", [], 10⟩]).take (j + 1)).map
          RouteAction.probe) ++ [RouteAction.bindTo r] ∧
      (∀ t ∈ (routingLocalityTiers "router_node_id" (some "router_az") true
          true
          [⟨"r1", "router_node_id", some "router_az", [], 10⟩,
           ⟨"r2", "node2", some "router_az", [], 10⟩,
           ⟨"r3", "node2", some "az2", [], 10⟩]).take j,
        ∀ x ∈ t, (fun x => x.uid == "r3") x = false) ∧
      (∀ q, RouteAction.sleep q ∉ attemptTiers (fun x => x.uid == "r3")
        (backoffDelay [999, 999, 999, 999] 0)
        (routingLocalityTiers "router_node_id" (some "router_az") true true
          [⟨"r1", "router_node_id", some "router_az", [], 10⟩,
           ⟨"r2", "node2", some "router_az", [], 10⟩,
           ⟨"r3", "node2", some "az2", [], 10⟩])) :=
  claim_C4 "router_node_id" (some "router_az")
    [⟨"r1", "router_node_id", some "router_az", [], 10⟩,
     ⟨"r2", "node2", some "router_az", [], 10⟩,
     ⟨"r3", "node2", some "az2", [], 10⟩]
    (fun x => x.uid == "r3") [999, 999, 999, 999] 0 (by decide)

theorem nat_min?_eq_some_iff {a : ℕ} {xs : List ℕ} :
    xs.min? = some a ↔ a ∈ xs ∧ ∀ b ∈ xs, a ≤ b :=
  List.min?_eq_some_iff (fun x => le_refl x) (fun x y => min_choice x y)
    (fun _ _ _ => le_min_iff)

theorem rankMultiplex_eq_of_min_some (modelId : String)
    (replicas : List Replica) (m : Nat)
    (hmin : ((replicas.filter (fun r => !decide (modelId ∈ r.model_ids))).map
      (fun r => r.model_ids.length)).min? = some m) :
    rankReplicasViaMultiplex modelId replicas =
      [replicas.filter (fun r => decide (modelId ∈ r.model_ids)),
       (replicas.filter (fun r => !decide (modelId ∈ r.model_ids))).filter
         (fun r => r.model_ids.length == m),
       (replicas.filter (fun r => !decide (modelId ∈ r.model_ids))).filter
         (fun r => r.model_ids.length != m)] := by
  simp only [rankReplicasViaMultiplex]
  rw [hmin]

theorem rankMultiplex_eq_of_min_none (modelId : String)
    (replicas : List Replica)
    (hmin : ((replicas.filter (fun r => !decide (modelId ∈ r.model_ids))).map
      (fun r => r.model_ids.length)).min? = none) :
    rankReplicasViaMultiplex modelId replicas =
      [replicas.filter (fun r => decide (modelId ∈ r.model_ids)), [], []] := by
  simp only [rankReplicasViaMultiplex]
  rw [hmin]

theorem attemptTiers_cons_none (avail : Replica → Bool) (d : ℤ)
    (tier : List Replica) (rest : List (List Replica))
    (h : tier.find? avail = none) :
    attemptTiers avail d (tier :: rest) =
      RouteAction.probe tier :: attemptTiers avail d rest := by
  simp only [attemptTiers]
  rw [h]

theorem attemptTiers_cons_some (avail : Replica → Bool) (d : ℤ)
    (tier : List Replica) (rest : List (List Replica)) (r : Replica)
    (h : tier.find? avail = some r) :
    attemptTiers avail d (tier :: rest) =
      [RouteAction.probe tier, RouteAction.bindTo r] := by
  simp only [attemptTiers]
  rw [h]

/-- C9 counterexample: the repository's ranking test fixture — `r1` caches
{m1, m2}, `r2` caches {m2, m3}, `r3` caches nothing, requested model `m1`.
The second tier produced by `rank_replicas_via_multiplex` is `[r3]`, a
replica with no cached model ids at all, which differs from the claim's
"fewest cached model ids among those that have any" (that would be `[r2]`). -/
theorem claim_C9_counterexample :
    (rankReplicasViaMultiplex "m1"
        [⟨"r2", "", none, ["m2", "m3"], 10⟩,
         ⟨"r1", "", none, ["m1", "m2"], 10⟩,
         ⟨"r3", "", none, [], 10⟩]).getD 1 [] ≠
      fewestModelsTierSpec "m1"
        [⟨"r2", "", none, ["m2", "m3"], 10⟩,
         ⟨"r1", "", none, ["m1", "m2"], 10⟩,
         ⟨"r3", "", none, [], 10⟩] ∧
    (rankReplicasViaMultiplex "m1"
        [⟨"r2", "", none, ["m2", "m3"], 10⟩,
         ⟨"r1", "", none, ["m1", "m2"], 10⟩,
         ⟨"r3", "", none, [], 10⟩]).getD 1 [] =
      [⟨"r3", "", none, [], 10⟩] ∧
    (⟨"r3", "", none, [], 10⟩ : Replica).model_ids = [] := by decide

/-- C9 (amended): for a request with a non-empty multiplexed model id,
`rank_replicas_via_multiplex` places first the tier of replicas whose
`multiplexed_model_ids` contain the requested id, and next the tier of
replicas with the fewest cached model ids among all remaining replicas
(including replicas with no cached models); a request falling back from an
entirely unavailable exact-match tier binds to a replica of that
fewest-models tier when one is available. -/
theorem claim_C9 (modelId : String) (replicas : List Replica)
    (avail : Replica → Bool) (d : ℤ) :
    ((rankReplicasViaMultiplex modelId replicas).getD 0 [] =
      replicas.filter (fun r => decide (modelId ∈ r.model_ids))) ∧
    (∀ r, r ∈ (rankReplicasViaMultiplex modelId replicas).getD 1 [] ↔
      (r ∈ replicas ∧ modelId ∉ r.model_ids ∧
        ∀ r' ∈ replicas, modelId ∉ r'.model_ids →
          r.model_ids.length ≤ r'.model_ids.length)) ∧
    ((∀ x ∈ (rankReplicasViaMultiplex modelId replicas).getD 0 [],
        avail x = false) →
      (∃ y ∈ (rankReplicasViaMultiplex modelId replicas).getD 1 [],
        avail y = true) →
      ∃ r, avail r = true ∧
        r ∈ (rankReplicasViaMultiplex modelId replicas).getD 1 [] ∧
        attemptTiers avail d (rankReplicasViaMultiplex modelId replicas) =
          [RouteAction.probe ((rankReplicasViaMultiplex modelId replicas).getD 0 []),
           RouteAction.probe ((rankReplicasViaMultiplex modelId replicas).getD 1 []),
           RouteAction.bindTo r]) := by
  cases hmin : ((replicas.filter (fun r => !decide (modelId ∈ r.model_ids))).map
      (fun r => r.model_ids.length)).min? with
  | none =>
    have hrank := rankMultiplex_eq_of_min_none modelId replicas hmin
    have hrest : replicas.filter (fun r => !decide (modelId ∈ r.model_ids)) = [] := by
      have := List.min?_eq_none_iff.mp hmin
      exact List.map_eq_nil_iff.mp this
    refine ⟨by rw [hrank]; rfl, ?_, ?_⟩
    · intro r
      rw [hrank]
      constructor
      · intro hr; cases hr
      · rintro ⟨hr, hcont, -⟩
        have hmem : r ∈ replicas.filter (fun r => !decide (modelId ∈ r.model_ids)) := by
          rw [List.mem_filter]
          exact ⟨hr, by simpa using hcont⟩
        rw [hrest] at hmem
        cases hmem
    · intro _ hex
      rw [hrank] at hex
      obtain ⟨y, hy, -⟩ := hex
      cases hy
  | some m =>
    have hrank := rankMultiplex_eq_of_min_some modelId replicas m hmin
    obtain ⟨hmem_m, hle_m⟩ := nat_min?_eq_some_iff.mp hmin
    refine ⟨by rw [hrank]; rfl, ?_, ?_⟩
    · intro r
      rw [hrank]
      show r ∈ (replicas.filter (fun r => !decide (modelId ∈ r.model_ids))).filter
          (fun r => r.model_ids.length == m) ↔ _
      rw [List.mem_filter, List.mem_filter]
      constructor
      · rintro ⟨⟨hr, hcont⟩, hlen⟩
        have hlen2 : r.model_ids.length = m := by simpa using hlen
        refine ⟨hr, by simpa using hcont, ?_⟩
        intro r' hr' hcont'
        rw [hlen2]
        apply hle_m
        rw [List.mem_map]
        refine ⟨r', ?_, rfl⟩
        rw [List.mem_filter]
        exact ⟨hr', by simpa using hcont'⟩
      · rintro ⟨hr, hcont, hmin_r⟩
        have hrrest : r ∈ replicas.filter (fun r => !decide (modelId ∈ r.model_ids)) := by
          rw [List.mem_filter]
          exact ⟨hr, by simpa using hcont⟩
        have h1 : m ≤ r.model_ids.length := by
          apply hle_m
          rw [List.mem_map]
          exact ⟨r, hrrest, rfl⟩
        have h2 : r.model_ids.length ≤ m := by
          obtain ⟨r0, hr0, hr0len⟩ := List.mem_map.mp hmem_m
          rw [List.mem_filter] at hr0
          have := hmin_r r0 hr0.1 (by simpa using hr0.2)
          omega
        refine ⟨⟨hr, by simpa using hcont⟩, ?_⟩
        have hlen : r.model_ids.length = m := by omega
        simpa using hlen
    · intro hall hex
      rw [hrank] at hall hex ⊢
      obtain ⟨y, hy, hay⟩ := hex
      have hf0 : (replicas.filter
          (fun r => decide (modelId ∈ r.model_ids))).find? avail = none := by
        rw [List.find?_eq_none]
        intro x hx
        simp [hall x hx]
      cases hf1 : ((replicas.filter (fun r => !decide (modelId ∈ r.model_ids))).filter
          (fun r => r.model_ids.length == m)).find? avail with
      | none =>
        have := List.find?_eq_none.mp hf1 y hy
        rw [hay] at this
        cases this rfl
      | some r =>
        refine ⟨r, List.find?_some hf1, List.mem_of_find?_eq_some hf1, ?_⟩
        rw [attemptTiers_cons_none avail d _ _ hf0,
          attemptTiers_cons_some avail d _ _ r hf1]
        rfl

/-- C9 witness: the repository's least-number-of-models test fixture —
`r1` caches {m1, m2}, `r2` caches {m2}, requested model `m3` matches no
replica, every replica can accept; the request binds to a replica of the
fewest-models tier. -/
theorem claim_C9_witness :
    ∃ r, (fun _ : Replica => true) r = true ∧
      r ∈ (rankReplicasViaMultiplex "m3"
        [⟨"r1", "", none, ["m1", "m2"], 10⟩,
         ⟨"r2", "", none, ["m2"], 10⟩]).getD 1 [] ∧
      attemptTiers (fun _ => true) 0 (rankReplicasViaMultiplex "m3"
          [⟨"r1", "", none, ["m1", "m2"], 10⟩,
           ⟨"r2", "", none, ["m2"], 10⟩]) =
        [RouteAction.probe ((rankReplicasViaMultiplex "m3"
            [⟨"r1", "", none, ["m1", "m2"], 10⟩,
             ⟨"r2", "", none, ["m2"], 10⟩]).getD 0 []),
         RouteAction.probe ((rankReplicasViaMultiplex "m3"
            [⟨"r1", "", none, ["m1", "m2"], 10⟩,
             ⟨"r2", "", none, ["m2"], 10⟩]).getD 1 []),
         RouteAction.bindTo r] :=
  (claim_C9 "m3"
    [⟨"r1", "", none, ["m1", "m2"], 10⟩, ⟨"r2", "", none, ["m2"], 10⟩]
    (fun _ => true) 0).2.2 (by decide) (by decide)

/-- Modelled from the spec: the router state visible to a routing request:
the active replica set and the queue-length cache. -/
structure RouterState where
  replicas : List Replica
  cache : ReplicaQueueLengthCache

/-- Modelled from the spec: `update_replicas` atomically replaces `replicas`
and drops the cache entries of replicas that are no longer active. -/
def updateReplicas (st : RouterState) (rs : List Replica) : RouterState :=
  ⟨rs, st.cache.removeInactiveReplicas (rs.map (fun r => r.uid))⟩

/-- Modelled from the spec: on PermanentlyDead the replica is evicted from
`replicas` and its cache entry is removed. -/
def evictDead (st : RouterState) (rid : String) : RouterState :=
  ⟨st.replicas.filter (fun r => r.uid != rid), st.cache.removeEntry rid⟩

/-- Modelled from the spec: the events a routing request can observe while it
waits to be bound: replica-set updates, probe responses carrying a queue
length, and probe failures (permanent death or transient unavailability). -/
inductive RouteEvent
  | update (rs : List Replica)
  | probeResult (rid : String) (q : Nat)
  | probeErrorDead (rid : String)
  | probeErrorTransient (rid : String)
deriving DecidableEq

/-- Modelled from the spec: the routing loop for one request.  A probe result
binds only if the probed replica is still a member of the current replica
set and reports spare capacity — a late response from a replica removed by
`update_replicas` is dropped and routing re-ranks.  A PermanentlyDead
failure evicts the replica and routing continues against the survivors with
no error surfaced; a transient failure leaves the replica in place.  Returns
the bound replica, if any, together with the router state at the moment of
return. -/
def routeLoop (st : RouterState) :
    List RouteEvent → Option Replica × RouterState
  | [] => (none, st)
  | e :: rest =>
    match e with
    | .update rs => routeLoop (updateReplicas st rs) rest
    | .probeResult rid q =>
      match st.replicas.find? (fun r => r.uid == rid) with
      | some r =>
        if q < r.max_ongoing then (some r, st) else routeLoop st rest
      | none => routeLoop st rest
    | .probeErrorDead rid => routeLoop (evictDead st rid) rest
    | .probeErrorTransient _ => routeLoop st rest

theorem routeLoop_probeResult_some (st : RouterState) (rid : String) (q : Nat)
    (rest : List RouteEvent) (r0 : Replica)
    (hf : st.replicas.find? (fun r => r.uid == rid) = some r0) :
    routeLoop st (RouteEvent.probeResult rid q :: rest) =
      if q < r0.max_ongoing then (some r0, st) else routeLoop st rest := by
  simp only [routeLoop]
  rw [hf]

theorem routeLoop_probeResult_none (st : RouterState) (rid : String) (q : Nat)
    (rest : List RouteEvent)
    (hf : st.replicas.find? (fun r => r.uid == rid) = none) :
    routeLoop st (RouteEvent.probeResult rid q :: rest) =
      routeLoop st rest := by
  simp only [routeLoop]
  rw [hf]

/-- C3: the replica returned by a routing request is a member of the replica
set at the moment of return: a probe response from a replica that has been
removed by an intervening `update_replicas` never causes that replica to be
bound — the worker drops the probe result and re-ranks. -/
theorem claim_C3 (st : RouterState) (evs : List RouteEvent) (r : Replica)
    (h : (routeLoop st evs).1 = some r) :
    r ∈ (routeLoop st evs).2.replicas := by
  induction evs generalizing st with
  | nil => cases h
  | cons e rest ih =>
    cases e with
    | update rs => exact ih (updateReplicas st rs) h
    | probeResult rid q =>
      cases hf : st.replicas.find? (fun r => r.uid == rid) with
      | some r0 =>
        rw [routeLoop_probeResult_some st rid q rest r0 hf] at h ⊢
        by_cases hq : q < r0.max_ongoing
        · rw [if_pos hq] at h ⊢
          cases h
          exact List.mem_of_find?_eq_some hf
        · rw [if_neg hq] at h ⊢
          exact ih st h
      | none =>
        rw [routeLoop_probeResult_none st rid q rest hf] at h ⊢
        exact ih st h
    | probeErrorDead rid => exact ih (evictDead st rid) h
    | probeErrorTransient rid => exact ih st h

/-- C3 witness: the repository's removed-replica scenario: `r1` is probed,
`update_replicas` replaces it with `r2`, then `r1`'s late probe response
arrives and is dropped; `r2` responds and is bound, and the bound replica is
in the replica set at the moment of return. -/
theorem claim_C3_witness :
    (⟨"r2", "", none, [], 10⟩ : Replica) ∈
      (routeLoop ⟨[⟨"r1", "", none, [], 10⟩], ReplicaQueueLengthCache.empty 10⟩
        [RouteEvent.update [⟨"r2", "", none, [], 10⟩],
         RouteEvent.probeResult "r1" 0,
         RouteEvent.probeResult "r2" 0]).2.replicas :=
  claim_C3 ⟨[⟨"r1", "", none, [], 10⟩], ReplicaQueueLengthCache.empty 10⟩
    [RouteEvent.update [⟨"r2", "", none, [], 10⟩],
     RouteEvent.probeResult "r1" 0,
     RouteEvent.probeResult "r2" 0]
    ⟨"r2", "", none, [], 10⟩ (by decide)

theorem routingLocalityTiers_mem_subset (selfNode : String)
    (selfAZ : Option String) (pn pa : Bool) (reps : List Replica)
    (t : List Replica)
    (ht : t ∈ routingLocalityTiers selfNode selfAZ pn pa reps) : t ⊆ reps := by
  unfold routingLocalityTiers at ht
  cases pn <;> cases pa <;> simp at ht
  · rw [ht]
    exact fun x hx => hx
  · rcases ht with rfl | rfl
    · exact List.filter_subset' reps
    · exact fun x hx => hx
  · rcases ht with rfl | rfl
    · exact List.filter_subset' reps
    · exact fun x hx => hx
  · rcases ht with rfl | rfl | rfl
    · exact List.filter_subset' reps
    · exact List.filter_subset' reps
    · exact fun x hx => hx

theorem rankReplicasViaMultiplex_mem_subset (modelId : String)
    (reps : List Replica) (t : List Replica)
    (ht : t ∈ rankReplicasViaMultiplex modelId reps) : t ⊆ reps := by
  cases hmin : ((reps.filter (fun r => !decide (modelId ∈ r.model_ids))).map
      (fun r => r.model_ids.length)).min? with
  | none =>
    rw [rankMultiplex_eq_of_min_none modelId reps hmin] at ht
    simp at ht
    rcases ht with rfl | rfl
    · exact List.filter_subset' reps
    · exact fun x hx => by cases hx
  | some m =>
    rw [rankMultiplex_eq_of_min_some modelId reps m hmin] at ht
    simp at ht
    rcases ht with rfl | rfl | rfl
    · exact List.filter_subset' reps
    · exact fun x hx => List.filter_subset' reps hx
    · exact fun x hx => List.filter_subset' reps hx

theorem routeLoop_preserves_no_rid (rid : String) :
    ∀ (evs : List RouteEvent) (st : RouterState),
      (∀ r ∈ st.replicas, r.uid ≠ rid) →
      (∀ rs, RouteEvent.update rs ∈ evs → ∀ r ∈ rs, r.uid ≠ rid) →
      ∀ r ∈ (routeLoop st evs).2.replicas, r.uid ≠ rid := by
  intro evs
  induction evs with
  | nil => intro st hst _; exact hst
  | cons e rest ih =>
    intro st hst hupd
    have hupd' : ∀ rs, RouteEvent.update rs ∈ rest → ∀ r ∈ rs, r.uid ≠ rid :=
      fun rs hm => hupd rs (List.mem_cons_of_mem e hm)
    cases e with
    | update rs =>
      exact ih (updateReplicas st rs)
        (hupd rs (List.mem_cons_self _ _)) hupd'
    | probeResult rid' q =>
      cases hf : st.replicas.find? (fun r => r.uid == rid') with
      | some r0 =>
        rw [routeLoop_probeResult_some st rid' q rest r0 hf]
        by_cases hq : q < r0.max_ongoing
        · rw [if_pos hq]
          exact hst
        · rw [if_neg hq]
          exact ih st hst hupd'
      | none =>
        rw [routeLoop_probeResult_none st rid' q rest hf]
        exact ih st hst hupd'
    | probeErrorDead rid' =>
      refine ih (evictDead st rid') ?_ hupd'
      intro r hr
      exact hst r (List.filter_subset' _ hr)
    | probeErrorTransient rid' => exact ih st hst hupd'

/-- C5: when a probe fails with PermanentlyDead, the router evicts that
replica from the replica set and removes its cache entry, surfaces no error
(the routing loop simply continues against the survivors), and afterwards —
as long as no `update_replicas` re-adds it — the replica never again appears
in the replica set nor in any candidate tier handed to the probe subsystem,
so `get_queue_len` is never invoked on it again. -/
theorem claim_C5 (st : RouterState) (rid : String) :
    (∀ r ∈ (evictDead st rid).replicas, r.uid ≠ rid) ∧
    ((evictDead st rid).cache.entry rid = none) ∧
    (∀ rest, routeLoop st (RouteEvent.probeErrorDead rid :: rest) =
      routeLoop (evictDead st rid) rest) ∧
    (∀ evs, (∀ rs, RouteEvent.update rs ∈ evs → ∀ r ∈ rs, r.uid ≠ rid) →
      (∀ r ∈ (routeLoop (evictDead st rid) evs).2.replicas, r.uid ≠ rid) ∧
      (∀ selfNode selfAZ pn pa t,
        t ∈ routingLocalityTiers selfNode selfAZ pn pa
          (routeLoop (evictDead st rid) evs).2.replicas →
        ∀ r ∈ t, r.uid ≠ rid) ∧
      (∀ modelId t, t ∈ rankReplicasViaMultiplex modelId
          (routeLoop (evictDead st rid) evs).2.replicas →
        ∀ r ∈ t, r.uid ≠ rid)) := by
  have hevict : ∀ r ∈ (evictDead st rid).replicas, r.uid ≠ rid := by
    intro r hr
    have := (List.mem_filter.mp hr).2
    simpa using this
  refine ⟨hevict, ?_, fun rest => rfl, ?_⟩
  · simp [evictDead, ReplicaQueueLengthCache.removeEntry]
  · intro evs hupd
    have hkeep := routeLoop_preserves_no_rid rid evs (evictDead st rid)
      hevict hupd
    refine ⟨hkeep, ?_, ?_⟩
    · intro selfNode selfAZ pn pa t ht r hr
      exact hkeep r
        (routingLocalityTiers_mem_subset selfNode selfAZ pn pa _ t ht hr)
    · intro modelId t ht r hr
      exact hkeep r (rankReplicasViaMultiplex_mem_subset modelId _ t ht hr)

/-- C5 witness: the repository's actor-died scenario: replicas `r1` and
`r2`, `r1` dies permanently and is evicted; after routing one further probe
of `r2`, `r1` is in no replica set and no candidate tier. -/
theorem claim_C5_witness :
    (∀ r ∈ (routeLoop (evictDead
        ⟨[⟨"r1", "", none, [], 10⟩, ⟨"r2", "", none, [], 10⟩],
          ReplicaQueueLengthCache.empty 10⟩ "r1")
        [RouteEvent.probeResult "r2" 0]).2.replicas, r.uid ≠ "r1") ∧
    (∀ selfNode selfAZ pn pa t,
      t ∈ routingLocalityTiers selfNode selfAZ pn pa
        (routeLoop (evictDead
          ⟨[⟨"r1", "", none, [], 10⟩, ⟨"r2", "", none, [], 10⟩],
            ReplicaQueueLengthCache.empty 10⟩ "r1")
          [RouteEvent.probeResult "r2" 0]).2.replicas →
      ∀ r ∈ t, r.uid ≠ "r1") ∧
    (∀ modelId t, t ∈ rankReplicasViaMultiplex modelId
        (routeLoop (evictDead
          ⟨[⟨"r1", "", none, [], 10⟩, ⟨"r2", "", none, [], 10⟩],
            ReplicaQueueLengthCache.empty 10⟩ "r1")
          [RouteEvent.probeResult "r2" 0]).2.replicas →
      ∀ r ∈ t, r.uid ≠ "r1") :=
  (claim_C5 ⟨[⟨"r1", "", none, [], 10⟩, ⟨"r2", "", none, [], 10⟩],
      ReplicaQueueLengthCache.empty 10⟩ "r1").2.2.2
    [RouteEvent.probeResult "r2" 0] (by intro rs hm; simp at hm)

/-- Modelled from the spec: how the router treats one candidate when the
queue-length cache is enabled: a fresh cache entry below
`max_ongoing_requests` lets the replica be chosen without probing; an
absent, stale, or at-capacity entry forces an active probe — the cache is
trusted only to accept, never to reject. -/
inductive ProbeDecision
  | useCache (q : Nat)
  | probe
deriving DecidableEq

/-- Modelled from the spec: the cache consultation for one candidate. -/
def cacheProbeDecision (c : ReplicaQueueLengthCache) (now : ℤ) (r : Replica) :
    ProbeDecision :=
  match c.get r.uid now with
  | some q => if q < r.max_ongoing then .useCache q else .probe
  | none => .probe

/-- Modelled from the spec: routing one candidate under the cache policy: on
`useCache` the replica is chosen without probing; otherwise `get_queue_len`
is invoked and the replica is bound exactly when the reported queue length is
below `max_ongoing_requests`.  The boolean records whether a probe was
issued. -/
def routeCandidateWithCache (c : ReplicaQueueLengthCache) (now : ℤ)
    (r : Replica) (resp : Nat) : Bool × Option Replica :=
  match cacheProbeDecision c now r with
  | .useCache _ => (false, some r)
  | .probe => (true, if resp < r.max_ongoing then some r else none)

/-- C8: a replica whose cache entry reports a queue length at or above
`max_ongoing_requests` is still actively probed (the at-capacity cache value
never skips the probe), and the request binds to it once the probe reports a
queue length below `max_ongoing_requests`. -/
theorem claim_C8 (c : ReplicaQueueLengthCache) (now : ℤ) (r : Replica)
    (q resp : Nat) (hq : c.get r.uid now = some q)
    (hcap : r.max_ongoing ≤ q) (hresp : resp < r.max_ongoing) :
    (routeCandidateWithCache c now r resp).1 = true ∧
    (routeCandidateWithCache c now r resp).2 = some r := by
  have hdec : cacheProbeDecision c now r = .probe := by
    unfold cacheProbeDecision
    rw [hq]
    show (if q < r.max_ongoing then ProbeDecision.useCache q
      else ProbeDecision.probe) = ProbeDecision.probe
    rw [if_neg (not_lt.mpr hcap)]
  unfold routeCandidateWithCache
  rw [hdec, if_pos hresp]
  exact ⟨rfl, rfl⟩

/-- C8 witness: the repository's at-capacity cache scenario: the cache entry
for `r1` reads 10 with `max_ongoing_requests = 10`; the probe is issued
anyway, reports 9, and the request binds to `r1`. -/
theorem claim_C8_witness :
    (routeCandidateWithCache
      ((ReplicaQueueLengthCache.empty 10).update "r1" 10 0) 0
      ⟨"r1", "", none, [], 10⟩ 9).1 = true ∧
    (routeCandidateWithCache
      ((ReplicaQueueLengthCache.empty 10).update "r1" 10 0) 0
      ⟨"r1", "", none, [], 10⟩ 9).2 = some ⟨"r1", "", none, [], 10⟩ :=
  claim_C8 ((ReplicaQueueLengthCache.empty 10).update "r1" 10 0) 0
    ⟨"r1", "", none, [], 10⟩ 10 9 (by decide) (by decide) (by decide)

/-- Modelled from the spec: a pending request, identified by its request id
and carrying the logical creation time `created_at`; a retried submission
re-submits the same request with its original `created_at` preserved. -/
structure Req where
  rid : String
  created_at : ℤ
deriving DecidableEq

/-- Modelled from the spec: ordered insertion into `pending_to_fulfill`,
which is kept sorted by `created_at` (stable: an equal-time request is
placed after the existing ones). -/
def insertByCreatedAt (r : Req) : List Req → List Req
  | [] => [r]
  | x :: t =>
    if r.created_at < x.created_at then r :: x :: t
    else x :: insertByCreatedAt r t

/-- Modelled from the spec: the pending-queue events: a submission via
`choose_replica_for_request` (the boolean marks a retry, which keeps the
request's original `created_at`), and a worker popping the oldest pending
request in order to bind it. -/
inductive QEvent
  | push (r : Req) (retry : Bool)
  | pop
deriving DecidableEq

/-- Modelled from the spec: the queue of pending requests together with the
sequence of requests bound so far, in binding order. -/
structure QState where
  queue : List Req
  binds : List Req
deriving DecidableEq

/-- Modelled from the spec: one pending-queue transition: a push inserts by
`created_at` (a retry is inserted identically, with its original
`created_at`); a pop removes the front — the oldest pending request — and
appends it to the bound sequence. -/
def stepQ (s : QState) : QEvent → QState
  | .push r _ => { s with queue := insertByCreatedAt r s.queue }
  | .pop =>
    match s.queue with
    | [] => s
    | h :: t => ⟨t, s.binds ++ [h]⟩

/-- Modelled from the spec: a sequence of pending-queue events applied in
order. -/
def runQ (s : QState) (evs : List QEvent) : QState := evs.foldl stepQ s

/-- Modelled from the spec: the initial state: nothing pending, nothing
bound. -/
def initQ : QState := ⟨[], []⟩

/-- Modelled from the spec: `pending_to_fulfill` is sorted by `created_at`. -/
def SortedQ (l : List Req) : Prop :=
  List.Sorted (fun a b => a.created_at ≤ b.created_at) l

/-- Whether an event pushes the given request. -/
def isPushOf (a : Req) : QEvent → Bool
  | .push r _ => r == a
  | .pop => false

/-- How many events of a trace push the given request. -/
def countPushes (evs : List QEvent) (a : Req) : Nat := evs.countP (isPushOf a)

theorem mem_insertByCreatedAt (r x : Req) :
    ∀ l : List Req, x ∈ insertByCreatedAt r l ↔ x = r ∨ x ∈ l := by
  intro l
  induction l with
  | nil => simp [insertByCreatedAt]
  | cons y t ih =>
    unfold insertByCreatedAt
    by_cases hc : r.created_at < y.created_at
    · rw [if_pos hc]
      simp
    · rw [if_neg hc]
      simp only [List.mem_cons, ih]
      tauto

theorem sorted_insertByCreatedAt (r : Req) :
    ∀ l : List Req, SortedQ l → SortedQ (insertByCreatedAt r l) := by
  intro l
  induction l with
  | nil =>
    intro _
    simp [insertByCreatedAt, SortedQ]
  | cons y t ih =>
    intro hs
    obtain ⟨hy, ht⟩ := List.sorted_cons.mp hs
    unfold insertByCreatedAt
    by_cases hc : r.created_at < y.created_at
    · rw [if_pos hc]
      refine List.sorted_cons.mpr ⟨?_, hs⟩
      intro z hz
      rcases List.mem_cons.mp hz with rfl | hz2
      · exact le_of_lt hc
      · exact le_trans (le_of_lt hc) (hy z hz2)
    · rw [if_neg hc]
      refine List.sorted_cons.mpr ⟨?_, ih ht⟩
      intro z hz
      rcases (mem_insertByCreatedAt r z t).mp hz with rfl | hz2
      · exact not_lt.mp hc
      · exact hy z hz2

theorem stepQ_pop_cons (s : QState) (h : Req) (t : List Req)
    (hq : s.queue = h :: t) : stepQ s QEvent.pop = ⟨t, s.binds ++ [h]⟩ := by
  simp only [stepQ]
  rw [hq]

theorem stepQ_pop_nil (s : QState) (hq : s.queue = []) :
    stepQ s QEvent.pop = s := by
  simp only [stepQ]
  rw [hq]

theorem sortedQ_stepQ (s : QState) (e : QEvent) (hs : SortedQ s.queue) :
    SortedQ (stepQ s e).queue := by
  cases e with
  | push r retry => exact sorted_insertByCreatedAt r s.queue hs
  | pop =>
    cases hq : s.queue with
    | nil => rw [stepQ_pop_nil s hq]; exact hs
    | cons h t =>
      rw [stepQ_pop_cons s h t hq]
      rw [hq] at hs
      exact (List.sorted_cons.mp hs).2

theorem sortedQ_runQ (evs : List QEvent) :
    ∀ s : QState, SortedQ s.queue → SortedQ (runQ s evs).queue := by
  induction evs with
  | nil => intro s hs; exact hs
  | cons e rest ih => intro s hs; exact ih (stepQ s e) (sortedQ_stepQ s e hs)

theorem binds_extend (evs : List QEvent) :
    ∀ s : QState, ∃ ext, (runQ s evs).binds = s.binds ++ ext := by
  induction evs with
  | nil => intro s; exact ⟨[], by simp [runQ]⟩
  | cons e rest ih =>
    intro s
    cases e with
    | push r retry =>
      obtain ⟨ext, hext⟩ := ih (stepQ s (QEvent.push r retry))
      exact ⟨ext, hext⟩
    | pop =>
      cases hq : s.queue with
      | nil =>
        obtain ⟨ext, hext⟩ := ih (stepQ s QEvent.pop)
        refine ⟨ext, ?_⟩
        show (runQ (stepQ s QEvent.pop) rest).binds = s.binds ++ ext
        rw [stepQ_pop_nil s hq] at hext ⊢
        exact hext
      | cons h t =>
        obtain ⟨ext, hext⟩ := ih (stepQ s QEvent.pop)
        refine ⟨h :: ext, ?_⟩
        show (runQ (stepQ s QEvent.pop) rest).binds = s.binds ++ h :: ext
        rw [hext, stepQ_pop_cons s h t hq]
        simp

theorem count_insertByCreatedAt (r a : Req) :
    ∀ l : List Req, (insertByCreatedAt r l).count a =
      l.count a + if r = a then 1 else 0 := by
  intro l
  induction l with
  | nil => simp [insertByCreatedAt, List.count_cons, beq_iff_eq]
  | cons y t ih =>
    unfold insertByCreatedAt
    by_cases hc : r.created_at < y.created_at
    · rw [if_pos hc]
      by_cases hr : r = a
      · simp [List.count_cons, beq_iff_eq, hr]
      · simp [List.count_cons, beq_iff_eq, hr]
    · rw [if_neg hc]
      by_cases hy : y = a
      · simp [List.count_cons, ih, beq_iff_eq, hy]
        omega
      · simp [List.count_cons, ih, beq_iff_eq, hy]

/-- Over any trace, the number of copies of a request in the queue plus the
number of copies in the bound sequence equals its initial copies plus the
number of pushes of it. -/
theorem countQB_runQ (a : Req) : ∀ (evs : List QEvent) (s : QState),
    (runQ s evs).queue.count a + (runQ s evs).binds.count a =
      s.queue.count a + s.binds.count a + countPushes evs a := by
  intro evs
  induction evs with
  | nil => intro s; simp [runQ, countPushes]
  | cons e rest ih =>
    intro s
    have hrest : countPushes (e :: rest) a =
        (if isPushOf a e then 1 else 0) + countPushes rest a := by
      simp only [countPushes, List.countP_cons]
      by_cases hp : isPushOf a e <;> simp [hp] <;> omega
    cases e with
    | push r retry =>
      rw [show runQ s (QEvent.push r retry :: rest) =
        runQ (stepQ s (QEvent.push r retry)) rest from rfl,
        ih (stepQ s (QEvent.push r retry)), hrest]
      have hq : (stepQ s (QEvent.push r retry)).queue.count a =
          s.queue.count a + if r = a then 1 else 0 :=
        count_insertByCreatedAt r a s.queue
      have hb : (stepQ s (QEvent.push r retry)).binds = s.binds := rfl
      have hpush : (if isPushOf a (QEvent.push r retry) = true then 1 else 0) =
          if r = a then 1 else 0 := by
        simp only [isPushOf, beq_iff_eq]
      rw [hq, hb, hpush]
      omega
    | pop =>
      have hrest2 : countPushes (QEvent.pop :: rest) a = countPushes rest a := by
        simp [countPushes, List.countP_cons, isPushOf]
      rw [show runQ s (QEvent.pop :: rest) = runQ (stepQ s QEvent.pop) rest
        from rfl, ih (stepQ s QEvent.pop), hrest2]
      cases hq : s.queue with
      | nil =>
        rw [stepQ_pop_nil s hq, hq]
      | cons h t =>
        rw [stepQ_pop_cons s h t hq]
        simp only [hq, List.count_cons, List.count_append, beq_iff_eq]
        by_cases hh : h = a <;> simp [hh] <;> omega

theorem binds_after (s : QState) (evs : List QEvent) (a b : Req)
    (ha : a ∈ s.binds) (hb : b ∉ s.binds)
    (hfin : b ∈ (runQ s evs).binds) :
    ∃ i j : Nat, i < j ∧ (runQ s evs).binds[i]? = some a ∧
      (runQ s evs).binds[j]? = some b := by
  obtain ⟨ext, hext⟩ := binds_extend evs s
  obtain ⟨i, hi⟩ := List.mem_iff_getElem?.mp ha
  have hilt : i < s.binds.length := by
    obtain ⟨hlt, -⟩ := List.getElem?_eq_some_iff.mp hi
    exact hlt
  have hbext : b ∈ ext := by
    rw [hext] at hfin
    rcases List.mem_append.mp hfin with h1 | h1
    · exact absurd h1 hb
    · exact h1
  obtain ⟨j0, hj0⟩ := List.mem_iff_getElem?.mp hbext
  refine ⟨i, s.binds.length + j0, by omega, ?_, ?_⟩
  · rw [hext, List.getElem?_append_left hilt]
    exact hi
  · rw [hext, List.getElem?_append_right (by omega)]
    have hidx : s.binds.length + j0 - s.binds.length = j0 := by omega
    rw [hidx]
    exact hj0

theorem fifo_from_state (a b : Req) (hab : a.created_at < b.created_at) :
    ∀ (evs : List QEvent) (s : QState),
      SortedQ s.queue → a ∈ s.queue → b ∈ s.queue → b ∉ s.binds →
      (∀ e ∈ evs, isPushOf a e = false) →
      (∀ e ∈ evs, isPushOf b e = false) →
      b ∈ (runQ s evs).binds →
      ∃ i j : Nat, i < j ∧ (runQ s evs).binds[i]? = some a ∧
        (runQ s evs).binds[j]? = some b := by
  have hne : a ≠ b := fun h => absurd hab (by rw [h]; exact lt_irrefl _)
  intro evs
  induction evs with
  | nil =>
    intro s _ _ _ hbnb _ _ hfin
    exact absurd hfin hbnb
  | cons e rest ih =>
    intro s hs ha hb hbnb hpa hpb hfin
    have hpa' : ∀ e2 ∈ rest, isPushOf a e2 = false :=
      fun e2 he2 => hpa e2 (List.mem_cons_of_mem e he2)
    have hpb' : ∀ e2 ∈ rest, isPushOf b e2 = false :=
      fun e2 he2 => hpb e2 (List.mem_cons_of_mem e he2)
    cases e with
    | push r retry =>
      have hra : r ≠ a := by
        have := hpa _ (List.mem_cons_self _ _)
        simpa [isPushOf] using this
      have hrb : r ≠ b := by
        have := hpb _ (List.mem_cons_self _ _)
        simpa [isPushOf] using this
      refine ih (stepQ s (QEvent.push r retry)) ?_ ?_ ?_ hbnb hpa' hpb' hfin
      · exact sorted_insertByCreatedAt r s.queue hs
      · exact (mem_insertByCreatedAt r a s.queue).mpr (Or.inr ha)
      · exact (mem_insertByCreatedAt r b s.queue).mpr (Or.inr hb)
    | pop =>
      cases hq : s.queue with
      | nil => rw [hq] at ha; cases ha
      | cons h t =>
        have hstep : stepQ s QEvent.pop = ⟨t, s.binds ++ [h]⟩ :=
          stepQ_pop_cons s h t hq
        rw [hq] at hs ha hb
        have hfin' : b ∈ (runQ (stepQ s QEvent.pop) rest).binds := hfin
        by_cases hhb : h = b
        · subst hhb
          rcases List.mem_cons.mp ha with rfl | hat
          · exact absurd rfl hne
          · have := (List.sorted_cons.mp hs).1 a hat
            exact absurd hab (not_lt.mpr this)
        · by_cases hha : h = a
          · have hain : a ∈ (stepQ s QEvent.pop).binds := by
              rw [hstep, hha]
              simp
            have hbnin : b ∉ (stepQ s QEvent.pop).binds := by
              rw [hstep]
              intro hmem
              rcases List.mem_append.mp hmem with h1 | h1
              · exact hbnb h1
              · exact hhb (List.mem_singleton.mp h1).symm
            exact binds_after (stepQ s QEvent.pop) rest a b hain hbnin hfin'
          · have hat : a ∈ t := by
              rcases List.mem_cons.mp ha with rfl | h1
              · exact absurd rfl hha
              · exact h1
            have hbt : b ∈ t := by
              rcases List.mem_cons.mp hb with rfl | h1
              · exact absurd rfl hhb
              · exact h1
            refine ih (stepQ s QEvent.pop) ?_ ?_ ?_ ?_ hpa' hpb' hfin'
            · rw [hstep]
              exact (List.sorted_cons.mp hs).2
            · rw [hstep]
              exact hat
            · rw [hstep]
              exact hbt
            · rw [hstep]
              intro hmem
              rcases List.mem_append.mp hmem with h1 | h1
              · exact hbnb h1
              · exact hhb (List.mem_singleton.mp h1).symm

/-- C1: requests that are ever simultaneously pending are bound in ascending
`created_at` order: for any trace of submissions (including retried
submissions, which keep their original `created_at`) and worker pops in
which `a` and `b` are each submitted at most once, if `a` and `b` are both
pending after some prefix of the trace and `b` is eventually bound, then `a`
is bound strictly before `b`. -/
theorem claim_C1 (evs : List QEvent) (a b : Req)
    (hab : a.created_at < b.created_at) (k : Nat)
    (ha : a ∈ (runQ initQ (evs.take k)).queue)
    (hb : b ∈ (runQ initQ (evs.take k)).queue)
    (hpa : countPushes evs a ≤ 1) (hpb : countPushes evs b ≤ 1)
    (hfin : b ∈ (runQ initQ evs).binds) :
    ∃ i j : Nat, i < j ∧ (runQ initQ evs).binds[i]? = some a ∧
      (runQ initQ evs).binds[j]? = some b := by
  have hsplit : runQ initQ evs =
      runQ (runQ initQ (evs.take k)) (evs.drop k) := by
    rw [runQ, runQ, runQ, ← List.foldl_append, List.take_append_drop]
  have hsorted : SortedQ (runQ initQ (evs.take k)).queue :=
    sortedQ_runQ (evs.take k) initQ (by simp [initQ, SortedQ])
  have hca := countQB_runQ a (evs.take k) initQ
  have hcb := countQB_runQ b (evs.take k) initQ
  have hinitq : (initQ.queue.count a = 0 ∧ initQ.binds.count a = 0 ∧
      initQ.queue.count b = 0 ∧ initQ.binds.count b = 0) := by
    simp [initQ]
  have hsplit_a : countPushes (evs.take k) a + countPushes (evs.drop k) a =
      countPushes evs a := by
    rw [countPushes, countPushes, countPushes, ← List.countP_append,
      List.take_append_drop]
  have hsplit_b : countPushes (evs.take k) b + countPushes (evs.drop k) b =
      countPushes evs b := by
    rw [countPushes, countPushes, countPushes, ← List.countP_append,
      List.take_append_drop]
  have hqa : 0 < (runQ initQ (evs.take k)).queue.count a :=
    List.count_pos_iff_mem.mpr ha
  have hqb : 0 < (runQ initQ (evs.take k)).queue.count b :=
    List.count_pos_iff_mem.mpr hb
  have hdropa : countPushes (evs.drop k) a = 0 := by omega
  have hbinds_b : (runQ initQ (evs.take k)).binds.count b = 0 := by omega
  have hpa' : ∀ e ∈ evs.drop k, isPushOf a e = false := by
    intro e he
    have := List.countP_eq_zero.mp hdropa e he
    simpa using this
  have hpb' : ∀ e ∈ evs.drop k, isPushOf b e = false := by
    have hdropb : countPushes (evs.drop k) b = 0 := by omega
    intro e he
    have := List.countP_eq_zero.mp hdropb e he
    simpa using this
  have hbnb : b ∉ (runQ initQ (evs.take k)).binds := by
    intro hmem
    have := List.count_pos_iff_mem.mpr hmem
    omega
  rw [hsplit] at hfin ⊢
  exact fifo_from_state a b hab (evs.drop k) (runQ initQ (evs.take k))
    hsorted ha hb hbnb hpa' hpb' hfin

/-- C1 witness: two requests with `created_at` 0 and 1 are retried in
reverse order (`is_retry` submissions preserving `created_at`), then a
worker binds twice; the earlier-created request is bound strictly first. -/
theorem claim_C1_witness :
    ∃ i j : Nat, i < j ∧
      (runQ initQ [QEvent.push ⟨"b", 1⟩ true, QEvent.push ⟨"a", 0⟩ true,
        QEvent.pop, QEvent.pop]).binds[i]? = some ⟨"a", 0⟩ ∧
      (runQ initQ [QEvent.push ⟨"b", 1⟩ true, QEvent.push ⟨"a", 0⟩ true,
        QEvent.pop, QEvent.pop]).binds[j]? = some ⟨"b", 1⟩ :=
  claim_C1 [QEvent.push ⟨"b", 1⟩ true, QEvent.push ⟨"a", 0⟩ true,
      QEvent.pop, QEvent.pop] ⟨"a", 0⟩ ⟨"b", 1⟩ (by decide) 2
    (by decide) (by decide) (by decide) (by decide) (by decide)

end RequestRouter
